import Mathlib

/-!
Shallow embedding of `scrape_amsclubs.py` (UBC-Clubs-Finder): a one-shot
scraper that walks a paginated club directory, extracts (name, description,
category) per club detail page, filters empty names, sorts and serializes.

Python string primitives are modelled over the string's list of code points
(`String.toList`), which matches Python's view of `str` as a sequence of
code points:
  * `sub in s`        → `strIn sub s`
  * `s.startswith(p)` → `pyStartsWith s p`
  * `s.split("#", 1)[0]` → `splitHashHead s`
  * `s.strip()`       → `pyStrip s`
HTML soups are modelled by the results of the only queries the source makes
on them (heading texts, title text, meta description, paragraph texts,
anchor list).  Network fetches are modelled by explicit oracle values
(`FetchResult`, `PageFetch`): a fallible fetch is an input to the function,
matching the source's try/except structure.
-/

namespace ClubScraper

/-- Python `sub in s` (substring containment over code points). -/
def strIn (sub s : String) : Bool :=
  (List.range (s.toList.length + 1)).any (fun i => sub.toList.isPrefixOf (s.toList.drop i))

/-- Python `s.startswith(p)`. -/
def pyStartsWith (s p : String) : Bool :=
  p.toList.isPrefixOf s.toList

/-- Python `s.split("#", 1)[0]`: everything before the first `'#'`. -/
def splitHashHead (s : String) : String :=
  (s.toList.takeWhile (fun c => c ≠ '#')).asString

/-- Drop whitespace from both ends of a list of code points. -/
def stripChars (l : List Char) : List Char :=
  ((l.dropWhile Char.isWhitespace).reverse.dropWhile Char.isWhitespace).reverse

/-- Python `s.strip()`: drop whitespace from both ends. -/
def pyStrip (s : String) : String :=
  (stripChars s.toList).asString

/-- `BASE = "https://amsclubs.ca"` (line 19 of the source). -/
def BASE : String := "https://amsclubs.ca"

/-- `LIST = f"{BASE}/all-clubs/"` (line 20 of the source). -/
def LIST : String := BASE ++ "/all-clubs/"

/-! ### Categorizer (`guess_category`, lines 79-96) -/

def businessKeywords : List String :=
  ["finance", "business", "consult", "entrepreneur", "commerce", "sauder", "marketing"]

def technologyKeywords : List String :=
  ["code", "program", "developer", "software", "product management", "pm club", "data",
   "ai", "ml", "robot", "hackathon", "tech"]

def sciencesKeywords : List String :=
  ["biology", "physics", "chemistry", "science", "research", "neuroscience", "math",
   "kinesiology", "geology", "astronomy", "statistics", "biochem"]

def athleticKeywords : List String :=
  ["sport", "athletic", "soccer", "basketball", "hockey", "climb", "martial", "yoga",
   "dance", "run", "rowing", "tennis", "badminton", "swim", "ultimate", "volleyball",
   "taekwondo", "muay thai"]

def serviceKeywords : List String :=
  ["volunteer", "service", "outreach", "charity", "non-profit", "fundrais", "community",
   "brigade", "ems", "first aid"]

def culturalKeywords : List String :=
  ["culture", "cultural", "chinese", "korean", "japanese", "indian", "persian", "filipino",
   "vietnamese", "latino", "hispanic", "african", "arab", "jewish", "islamic", "sikh"]

def recreationalKeywords : List String :=
  ["game", "gaming", "board game", "anime", "film", "photography", "recreation", "outdoor",
   "hiking", "improv", "music", "radio", "theatre", "clubhouse", "tabletop"]

/-- Python `any(k in t for k in ks)`. -/
def anyKeyword (ks : List String) (t : String) : Bool :=
  ks.any (fun k => strIn k t)

/-- Python `s.lower()`, modelled per code point (as `String.toLower` does;
non-ASCII letters are kept unchanged by `Char.toLower`). -/
def pyLower (s : String) : String :=
  (s.toList.map Char.toLower).asString

/-- `t = f"{name} {desc} {url}".lower()` (line 80). -/
def categoryText (name desc url : String) : String :=
  pyLower (name ++ " " ++ desc ++ " " ++ url)

/-- `guess_category` (lines 79-96): ordered keyword cascade, default `"Other"`. -/
def guess_category (name desc url : String) : String :=
  let t := categoryText name desc url
  if anyKeyword businessKeywords t then "Business"
  else if anyKeyword technologyKeywords t then "Technology"
  else if anyKeyword sciencesKeywords t then "Sciences"
  else if anyKeyword athleticKeywords t then "Athletic"
  else if anyKeyword serviceKeywords t then "Service"
  else if anyKeyword culturalKeywords t then "Cultural"
  else if anyKeyword recreationalKeywords t then "Recreational"
  else "Other"

/-- Following the specification's description of the categorizer: an ordered
list of (label, keyword list) pairs, checked in order. -/
def specCategoryTable : List (String × List String) :=
  [("Business", businessKeywords), ("Technology", technologyKeywords),
   ("Sciences", sciencesKeywords), ("Athletic", athleticKeywords),
   ("Service", serviceKeywords), ("Cultural", culturalKeywords),
   ("Recreational", recreationalKeywords)]

/-- Following the specification's description: the FIRST category whose
keyword list has a member occurring in the text wins; default `"Other"`. -/
def specFirstMatch (table : List (String × List String)) (t : String) : String :=
  match table.find? (fun e => anyKeyword e.2 t) with
  | some e => e.1
  | none => "Other"

/-- `CATEGORIES` (line 77). -/
def CATEGORIES : List String :=
  ["Athletic", "Service", "Cultural", "Recreational", "Business", "Technology",
   "Sciences", "Other"]

/-- The sort key's first component (line 159):
`CATEGORIES.index(cat) if cat in CATEGORIES else len(CATEGORIES)`. -/
def categoryRank (cat : String) : Nat :=
  if cat ∈ CATEGORIES then CATEGORIES.indexOf cat else CATEGORIES.length

/-! ### Listing link extractor (`find_club_links`, lines 33-48) -/

/-- An anchor element as the source queries it: its `href` attribute and its
visible text `a.get_text(" ", strip=True)`. -/
structure Anchor where
  href : String
  text : String
deriving DecidableEq, Repr

/-- The body of the `find_club_links` loop for one anchor (lines 40-47):
`some u` when the anchor contributes the cleaned URL `u` to the set,
`none` when it is skipped. -/
def processAnchor (a : Anchor) : Option String :=
  if strIn "Discover" a.text then
    let href := if pyStartsWith a.href "/" then BASE ++ a.href else a.href
    if pyStartsWith href BASE then some (splitHashHead href) else none
  else none

/-- `find_club_links` (lines 33-48): collect the kept URLs into a set and
return `sorted(hrefs)`.  The Python set is modelled by `dedup`; the result
is sorted in code-point lexicographic order, as Python sorts strings. -/
def find_club_links (page : List Anchor) : List String :=
  ((page.filterMap processAnchor).dedup).mergeSort (fun a b => decide (a ≤ b))

/-! ### Detail pages (`extract_name_from_detail`, `extract_description_from_detail`,
`parse_detail`, lines 50-106) -/

/-- A parsed detail page, represented by the results of the only queries the
source performs on the soup: the stripped texts (`get_text(strip=True)` /
`get_text(" ", strip=True)`) of its h1/h2/h3 elements in document order, the
stripped title text if a title tag exists, the `content` attribute of a
`meta[name=description]` tag if one exists, the texts of all `p` elements,
and the texts of all `p`/`div`/`li` elements. -/
structure DetailSoup where
  h1 : List String
  h2 : List String
  h3 : List String
  title : Option String
  metaDesc : Option String
  paragraphs : List String
  blocks : List String
deriving DecidableEq, Repr

/-- `h = soup.find(tag); h and h.get_text(strip=True)` (lines 51-54): the text
of the FIRST element of the given tag, accepted only when non-empty. -/
def headText (texts : List String) : Option String :=
  match texts with
  | [] => none
  | t :: _ => if t = "" then none else some t

/-- `re.sub(r"\s*–.*$", "", t)` (line 57) on newline-free stripped titles:
remove everything from the first en dash to the end, together with the
whitespace run immediately before that dash; no change when no en dash. -/
def stripTitleSuffix (t : String) : String :=
  if t.toList.contains '–' then
    (((t.toList.takeWhile (fun c => c ≠ '–')).reverse.dropWhile Char.isWhitespace).reverse).asString
  else t

/-- `extract_name_from_detail` (lines 50-58). -/
def extract_name_from_detail (s : DetailSoup) : String :=
  match headText s.h1 with
  | some t => t
  | none =>
  match headText s.h2 with
  | some t => t
  | none =>
  match headText s.h3 with
  | some t => t
  | none =>
  match s.title with
  | some t => stripTitleSuffix t
  | none => ""

/-- The paragraph fallbacks of `extract_description_from_detail`
(lines 65-75). -/
def descFallback (s : DetailSoup) : String :=
  match s.paragraphs.find? (fun t => t ≠ "" && t.length > 30) with
  | some t => t
  | none =>
  match s.blocks.find? (fun t => t ≠ "" && t.length > 10) with
  | some t => t
  | none => ""

/-- `extract_description_from_detail` (lines 60-75): meta description first
(skipped when absent or its `content` is empty), then the paragraph
fallbacks. -/
def extract_description_from_detail (s : DetailSoup) : String :=
  match s.metaDesc with
  | some c => if c ≠ "" then pyStrip c else descFallback s
  | none => descFallback s

/-- The outcome of `get_soup(url)` for a detail page: a parsed soup, or any
exception from the fetch/parse step. -/
inductive FetchResult where
  | ok (soup : DetailSoup)
  | failure
deriving DecidableEq, Repr

/-- The dict returned by `parse_detail` (lines 98-106). -/
structure Detail where
  name : String
  description : String
  category : String
deriving DecidableEq, Repr

/-- `parse_detail` (lines 98-106): the fetch outcome is passed as an explicit
oracle; on failure the all-empty record is returned. -/
def parse_detail (fetch : FetchResult) (url : String) : Detail :=
  match fetch with
  | .failure => ⟨"", "", "Other"⟩
  | .ok soup =>
    let name := extract_name_from_detail soup
    let desc := extract_description_from_detail soup
    ⟨name, desc, guess_category name desc url⟩

/-! ### Orchestrator (`main`, lines 134-170) -/

/-- A club record as appended to the output list (lines 150-155). -/
structure Club where
  name : String
  category : String
  description : String
  url : String
deriving DecidableEq, Repr

/-- The comparison induced by the sort key on line 159:
lexicographic on `(categoryRank category, name)`. -/
def clubLE (a b : Club) : Bool :=
  categoryRank a.category < categoryRank b.category ||
    (categoryRank a.category == categoryRank b.category && decide (a.name ≤ b.name))

/-- `clubs.sort(key=lambda c: (rank, name))` (line 159): a stable sort by the
lexicographic key comparison. -/
def sortClubs (l : List Club) : List Club :=
  l.mergeSort clubLE

/-- The orchestrator's mutable state: the `seen` URL set (as a list) and the
accumulated `clubs` list. -/
structure ScrapeState where
  seen : List String
  clubs : List Club
deriving DecidableEq, Repr

/-- The body of the per-URL loop in `main` (lines 144-156): mark the URL seen,
run `parse_detail` (with its fetch outcome as an oracle), skip when the
stripped name is empty, otherwise append the record with stripped name and
description. -/
def processUrl (st : ScrapeState) (url : String) (fetch : FetchResult) : ScrapeState :=
  let st1 : ScrapeState := { st with seen := url :: st.seen }
  let detail := parse_detail fetch url
  let name := pyStrip detail.name
  if name = "" then st1
  else { st1 with clubs := st1.clubs ++ [⟨name, detail.category, pyStrip detail.description, url⟩] }

/-- The per-URL loop over a list of URLs, each paired with its fetch
outcome. -/
def runUrls (st : ScrapeState) : List (String × FetchResult) → ScrapeState
  | [] => st
  | (url, f) :: rest => runUrls (processUrl st url f) rest

/-! ### Pagination walker (`iterate_pages`, lines 109-132) -/

/-- The outcome of fetching a listing page: HTTP 404 (termination signal),
any other transport/HTTP error (propagates: the generator yields nothing
further and the run aborts), or a parsed page. -/
inductive PageFetch where
  | notFound
  | failure
  | ok (page : List Anchor)
deriving Repr

/-- The loop of `iterate_pages` from page `p` with `fuel` iterations left
(`fuel` counts the remaining page numbers up to `max_pages`). -/
def iteratePagesFrom (fetch : Nat → PageFetch) (p : Nat) : Nat → List (Nat × List String)
  | 0 => []
  | fuel + 1 =>
    match fetch p with
    | .notFound => []
    | .failure => []
    | .ok page =>
      let links := find_club_links page
      if links = [] then [] else (p, links) :: iteratePagesFrom fetch (p + 1) fuel

/-- `iterate_pages(max_pages=50)` (lines 109-132): the sequence of
`(page number, links)` pairs the generator yields, with page fetching as an
explicit oracle.  Pages `1, 2, ...` are visited while `p <= max_pages`. -/
def iterate_pages (fetch : Nat → PageFetch) (max_pages : Nat := 50) : List (Nat × List String) :=
  iteratePagesFrom fetch 1 max_pages

/-- The name extraction as claim C6 words it: the first NON-EMPTY text among
all level-1 headings, then among all level-2 headings, then level-3, then the
stripped title, else the empty string. -/
def claimNameSpec (s : DetailSoup) : String :=
  match (s.h1.filter (fun t => t ≠ "")).head? with
  | some t => t
  | none =>
  match (s.h2.filter (fun t => t ≠ "")).head? with
  | some t => t
  | none =>
  match (s.h3.filter (fun t => t ≠ "")).head? with
  | some t => t
  | none =>
  match s.title with
  | some t => stripTitleSuffix t
  | none => ""

/-- First-match-wins combinator over an ordered list of extraction
strategies, with default `""` (the specification's design-note shape for the
fallback chain). -/
def applyFirst : List (DetailSoup → Option String) → DetailSoup → String
  | [], _ => ""
  | f :: rest, s =>
    match f s with
    | some t => t
    | none => applyFirst rest s

/-- The amended ordered fallback for name extraction: the text of the FIRST
heading element of each level (accepted only when non-empty), then the
stripped title. -/
def amendedNameStrategies : List (DetailSoup → Option String) :=
  [fun s => headText s.h1, fun s => headText s.h2, fun s => headText s.h3,
   fun s => s.title.map stripTitleSuffix]

/-- A concrete page-fetch oracle: page 1 holds one club card, page 2 is 404. -/
def pageOracle1 : Nat → PageFetch :=
  fun n => if n = 1 then .ok [⟨"/a#f", "Discover"⟩] else .notFound

/-! ## Theorems -/

/-! ### Shared helper lemmas -/

theorem toList_splitHashHead (s : String) :
    (splitHashHead s).toList = s.toList.takeWhile (fun c => c ≠ '#') := by
  rw [splitHashHead, List.toList_asString]

theorem strIn_hash_splitHashHead (s : String) : strIn "#" (splitHashHead s) = false := by
  rw [Bool.eq_false_iff]
  intro h
  rw [strIn, List.any_eq_true] at h
  obtain ⟨i, -, hpre⟩ := h
  rw [List.isPrefixOf_iff_prefix] at hpre
  have hm : '#' ∈ (splitHashHead s).toList.drop i := hpre.subset (by decide)
  have hm2 : '#' ∈ (splitHashHead s).toList := List.mem_of_mem_drop hm
  rw [toList_splitHashHead] at hm2
  have h3 := List.mem_takeWhile_imp hm2
  simp at h3

theorem pyStartsWith_append_left (p t : String) : pyStartsWith (p ++ t) p = true := by
  rw [pyStartsWith, List.isPrefixOf_iff_prefix]
  simp only [String.toList, String.data_append]
  exact List.prefix_append _ _

theorem pyStartsWith_splitHashHead {s p : String} (hn : '#' ∉ p.toList)
    (h : pyStartsWith s p = true) : pyStartsWith (splitHashHead s) p = true := by
  rw [pyStartsWith, List.isPrefixOf_iff_prefix] at h ⊢
  rw [toList_splitHashHead]
  obtain ⟨t, ht⟩ := h
  rw [← ht, List.takeWhile_append_of_pos ?hp]
  case hp =>
    intro a ha
    simp only [decide_eq_true_eq]
    rintro rfl
    exact hn ha
  exact List.prefix_append _ _

theorem pyStartsWith_trans {a b c : String} (h1 : pyStartsWith a b = true)
    (h2 : pyStartsWith b c = true) : pyStartsWith a c = true := by
  rw [pyStartsWith, List.isPrefixOf_iff_prefix] at h1 h2 ⊢
  exact h2.trans h1

theorem clubLE_total (a b : Club) : (clubLE a b || clubLE b a) = true := by
  simp only [clubLE, Bool.or_eq_true, Bool.and_eq_true, beq_iff_eq, decide_eq_true_eq]
  rcases Nat.lt_trichotomy (categoryRank a.category) (categoryRank b.category) with h | h | h
  · exact Or.inl (Or.inl h)
  · rcases le_total a.name b.name with hn | hn
    · exact Or.inl (Or.inr ⟨h, hn⟩)
    · exact Or.inr (Or.inr ⟨h.symm, hn⟩)
  · exact Or.inr (Or.inl h)

theorem clubLE_trans (a b c : Club) (h1 : clubLE a b) (h2 : clubLE b c) : clubLE a c := by
  simp only [clubLE, Bool.or_eq_true, Bool.and_eq_true, beq_iff_eq, decide_eq_true_eq] at h1 h2 ⊢
  rcases h1 with h1 | ⟨h1e, h1n⟩ <;> rcases h2 with h2 | ⟨h2e, h2n⟩
  · exact Or.inl (Nat.lt_trans h1 h2)
  · exact Or.inl (h2e ▸ h1)
  · exact Or.inl (h1e ▸ h2)
  · exact Or.inr ⟨h1e.trans h2e, le_trans h1n h2n⟩

/-- C1: `guess_category` tests the fixed keyword lists in the order Business,
Technology, Sciences, Athletic, Service, Cultural, Recreational over the
lower-cased concatenation of name, description and url, and returns the first
category whose keyword list has a member occurring as a substring; in
particular, whenever the text contains both a Business keyword and a
Technology keyword, the result is `"Business"`. -/
theorem guess_category_is_ordered_cascade :
    (∀ name desc url, guess_category name desc url
        = specFirstMatch specCategoryTable (categoryText name desc url)) ∧
    (∀ name desc url,
        anyKeyword businessKeywords (categoryText name desc url) = true →
        anyKeyword technologyKeywords (categoryText name desc url) = true →
        guess_category name desc url = "Business") := by
  constructor
  · intro name desc url
    simp only [guess_category, specFirstMatch, specCategoryTable, List.find?]
    repeat' split <;> simp_all
  · intro name desc url hb _
    simp [guess_category, hb]

/-- Witness for C1: a concrete input containing the Business keyword
`"finance"` and the Technology keyword `"tech"` classifies as Business. -/
theorem guess_category_is_ordered_cascade_witness :
    anyKeyword businessKeywords (categoryText "Finance Tech Club" "" "") = true ∧
    anyKeyword technologyKeywords (categoryText "Finance Tech Club" "" "") = true ∧
    guess_category "Finance Tech Club" "" "" = "Business" :=
  ⟨by decide, by decide,
    guess_category_is_ordered_cascade.2 "Finance Tech Club" "" "" (by decide) (by decide)⟩

/-- C8: when no keyword of any of the seven lists occurs in the lower-cased
concatenated text, `guess_category` returns `"Other"`; and `guess_category`
always returns one of the 8 labels of `CATEGORIES`. -/
theorem guess_category_other_default :
    (∀ name desc url,
        anyKeyword businessKeywords (categoryText name desc url) = false →
        anyKeyword technologyKeywords (categoryText name desc url) = false →
        anyKeyword sciencesKeywords (categoryText name desc url) = false →
        anyKeyword athleticKeywords (categoryText name desc url) = false →
        anyKeyword serviceKeywords (categoryText name desc url) = false →
        anyKeyword culturalKeywords (categoryText name desc url) = false →
        anyKeyword recreationalKeywords (categoryText name desc url) = false →
        guess_category name desc url = "Other") ∧
    (∀ name desc url, guess_category name desc url ∈ CATEGORIES) := by
  constructor
  · intro name desc url h1 h2 h3 h4 h5 h6 h7
    simp [guess_category, h1, h2, h3, h4, h5, h6, h7]
  · intro name desc url
    simp only [guess_category]
    repeat' split
    all_goals decide

/-- Witness for C8: a concrete input matching no keyword list yields
`"Other"`. -/
theorem guess_category_other_default_witness :
    guess_category "zzz" "" "" = "Other" :=
  guess_category_other_default.1 "zzz" "" "" (by decide) (by decide) (by decide)
    (by decide) (by decide) (by decide) (by decide)

/-- C2: the output club sequence is sorted by (category rank, name): the rank
(index in `CATEGORIES`, or its length when absent) is non-decreasing, and
within equal categories the name is non-decreasing in code-point
lexicographic order. -/
theorem sortClubs_sorted_by_rank_then_name : ∀ l : List Club, List.Pairwise
    (fun a b => categoryRank a.category ≤ categoryRank b.category ∧
      (a.category = b.category → a.name ≤ b.name)) (sortClubs l) := by
  intro l
  refine List.Pairwise.imp ?_ (List.sorted_mergeSort clubLE_trans clubLE_total l)
  intro a b hab
  simp only [clubLE, Bool.or_eq_true, Bool.and_eq_true, beq_iff_eq, decide_eq_true_eq] at hab
  rcases hab with h | ⟨he, hn⟩
  · refine ⟨Nat.le_of_lt h, fun hc => ?_⟩
    rw [hc] at h
    exact absurd h (Nat.lt_irrefl _)
  · exact ⟨Nat.le_of_eq he, fun _ => hn⟩

/-- C3: every URL returned by `find_club_links` is absolute, belongs to the
site rooted at `BASE`, and contains no `"#"` fragment. -/
theorem find_club_links_urls_clean :
    ∀ (page : List Anchor) (u : String), u ∈ find_club_links page →
      pyStartsWith u "https://" = true ∧ pyStartsWith u BASE = true ∧
        strIn "#" u = false := by
  intro page u hu
  rw [find_club_links, List.mem_mergeSort, List.mem_dedup, List.mem_filterMap] at hu
  obtain ⟨a, -, ha⟩ := hu
  simp only [processAnchor] at ha
  split at ha
  · split at ha
    · split at ha
      · rename_i hb
        rw [Option.some.injEq] at ha
        subst ha
        have hbase := pyStartsWith_splitHashHead (by decide) hb
        exact ⟨pyStartsWith_trans hbase (by decide), hbase, strIn_hash_splitHashHead _⟩
      · exact absurd ha (by simp)
    · split at ha
      · rename_i hb
        rw [Option.some.injEq] at ha
        subst ha
        have hbase := pyStartsWith_splitHashHead (by decide) hb
        exact ⟨pyStartsWith_trans hbase (by decide), hbase, strIn_hash_splitHashHead _⟩
      · exact absurd ha (by simp)
  · exact absurd ha (by simp)

/-- Witness for C3 at a concrete page: the anchor `/clubs/chess#frag` marked
`Discover` yields exactly the clean absolute site URL. -/
theorem find_club_links_urls_clean_witness :
    "https://amsclubs.ca/clubs/chess"
        ∈ find_club_links [⟨"/clubs/chess#frag", "Chess Club Discover"⟩] ∧
      (pyStartsWith "https://amsclubs.ca/clubs/chess" "https://" = true ∧
        pyStartsWith "https://amsclubs.ca/clubs/chess" BASE = true ∧
        strIn "#" "https://amsclubs.ca/clubs/chess" = false) := by
  have he : find_club_links [⟨"/clubs/chess#frag", "Chess Club Discover"⟩]
      = ["https://amsclubs.ca/clubs/chess"] := by
    rw [find_club_links]
    have h1 : (([⟨"/clubs/chess#frag", "Chess Club Discover"⟩] : List Anchor).filterMap
        processAnchor).dedup = ["https://amsclubs.ca/clubs/chess"] := by decide
    rw [h1, List.mergeSort_singleton]
  have hm : "https://amsclubs.ca/clubs/chess"
      ∈ find_club_links [⟨"/clubs/chess#frag", "Chess Club Discover"⟩] := by
    rw [he]; exact List.mem_singleton_self _
  exact ⟨hm, find_club_links_urls_clean _ _ hm⟩

/-- Counterexample to C9 as stated: a scheme-relative href (`//host/path`)
starts with `"/"`, so it is NOT discarded: it is kept, prefixed with the site
base into a mangled URL. -/
theorem find_club_links_scheme_relative_kept :
    find_club_links [⟨"//amsclubs.ca/clubs/chess", "Discover"⟩]
        = ["https://amsclubs.ca//amsclubs.ca/clubs/chess"] ∧
      find_club_links [⟨"//amsclubs.ca/clubs/chess", "Discover"⟩] ≠ [] := by
  have he : find_club_links [⟨"//amsclubs.ca/clubs/chess", "Discover"⟩]
      = ["https://amsclubs.ca//amsclubs.ca/clubs/chess"] := by
    rw [find_club_links]
    have h1 : (([⟨"//amsclubs.ca/clubs/chess", "Discover"⟩] : List Anchor).filterMap
        processAnchor).dedup = ["https://amsclubs.ca//amsclubs.ca/clubs/chess"] := by decide
    rw [h1, List.mergeSort_singleton]
  exact ⟨he, by rw [he]; simp⟩

/-- C9 (amended): `find_club_links` keeps an anchor's href exactly when its
text contains `"Discover"` and the href either starts with `"/"` (then
prefixed with the site base — this includes scheme-relative `"//"` hrefs,
which are kept in mangled form) or already starts with the site base; all
other hrefs (bare relative paths, external absolute URLs) are silently
discarded. -/
theorem find_club_links_href_filter :
    (∀ (page : List Anchor) (u : String),
        u ∈ find_club_links page ↔ ∃ b ∈ page, processAnchor b = some u) ∧
    (∀ a : Anchor, strIn "Discover" a.text = false → processAnchor a = none) ∧
    (∀ a : Anchor, strIn "Discover" a.text = true → pyStartsWith a.href "/" = true →
        processAnchor a = some (splitHashHead (BASE ++ a.href))) ∧
    (∀ a : Anchor, strIn "Discover" a.text = true → pyStartsWith a.href "/" = false →
        pyStartsWith a.href BASE = true → processAnchor a = some (splitHashHead a.href)) ∧
    (∀ a : Anchor, strIn "Discover" a.text = true → pyStartsWith a.href "/" = false →
        pyStartsWith a.href BASE = false → processAnchor a = none) := by
  refine ⟨fun page u => ?_, fun a hd => ?_, fun a hd hs => ?_, fun a hd hs hb => ?_,
    fun a hd hs hb => ?_⟩
  · rw [find_club_links, List.mem_mergeSort, List.mem_dedup, List.mem_filterMap]
  · simp [processAnchor, hd]
  · simp [processAnchor, hd, hs, pyStartsWith_append_left]
  · simp [processAnchor, hd, hs, hb]
  · simp [processAnchor, hd, hs, hb]

/-- Witness for C9 (amended) at concrete anchors: a bare relative path and an
external URL are discarded, a root-relative path is kept and made absolute. -/
theorem find_club_links_href_filter_witness :
    processAnchor ⟨"clubs/chess", "Discover"⟩ = none ∧
      processAnchor ⟨"https://example.com/x", "Discover the club"⟩ = none ∧
      processAnchor ⟨"/clubs/a", "Discover"⟩ = some "https://amsclubs.ca/clubs/a" := by
  refine ⟨find_club_links_href_filter.2.2.2.2 ⟨"clubs/chess", "Discover"⟩
      (by decide) (by decide) (by decide),
    find_club_links_href_filter.2.2.2.2 ⟨"https://example.com/x", "Discover the club"⟩
      (by decide) (by decide) (by decide), ?_⟩
  rw [find_club_links_href_filter.2.2.1 ⟨"/clubs/a", "Discover"⟩ (by decide) (by decide)]
  decide

/-- Counterexample to C6 as stated: on a page whose FIRST level-1 heading has
empty text but whose second level-1 heading reads "Chess Club", the code falls
through to the level-2 heading ("Heading Two") instead of returning the first
non-empty level-1 text. -/
theorem extract_name_first_heading_only :
    extract_name_from_detail ⟨["", "Chess Club"], ["Heading Two"], [], none, none, [], []⟩
        = "Heading Two" ∧
      claimNameSpec ⟨["", "Chess Club"], ["Heading Two"], [], none, none, [], []⟩
        = "Chess Club" ∧
      extract_name_from_detail ⟨["", "Chess Club"], ["Heading Two"], [], none, none, [], []⟩
        ≠ claimNameSpec ⟨["", "Chess Club"], ["Heading Two"], [], none, none, [], []⟩ := by
  refine ⟨rfl, rfl, ?_⟩
  decide

/-- C6 (amended): `extract_name_from_detail` applies an ordered fallback whose
first success wins: the text of the FIRST level-1 heading element when that
text is non-empty (a first heading with empty text falls through to the next
level, not to later same-level headings), then likewise the first level-2 and
first level-3 heading; failing those, the page title's text with its trailing
en-dash-delimited suffix removed; failing that, the empty string. -/
theorem extract_name_ordered_fallback :
    ∀ s : DetailSoup, extract_name_from_detail s = applyFirst amendedNameStrategies s := by
  intro s
  cases hh1 : headText s.h1 <;> cases hh2 : headText s.h2 <;> cases hh3 : headText s.h3 <;>
    cases ht : s.title <;>
    simp [extract_name_from_detail, applyFirst, amendedNameStrategies, hh1, hh2, hh3, ht]

theorem dropWhile_rev_dropWhile (p : Char → Bool) (l : List Char) :
    ((((l.dropWhile p).reverse.dropWhile p).reverse).dropWhile p)
      = ((l.dropWhile p).reverse.dropWhile p).reverse := by
  cases hc : ((l.dropWhile p).reverse.dropWhile p).reverse with
  | nil => rfl
  | cons b t =>
    have h1 : (l.dropWhile p).reverse.dropWhile p <:+ (l.dropWhile p).reverse :=
      List.dropWhile_suffix p
    have hpre := List.reverse_prefix.mpr h1
    rw [List.reverse_reverse] at hpre
    rw [hc] at hpre
    obtain ⟨r, hr⟩ := hpre
    have hb : p b = false := by
      have hh := List.head?_dropWhile_not p l
      rw [← hr] at hh
      simpa using hh
    simp [List.dropWhile_cons, hb]

theorem stripChars_idem (l : List Char) : stripChars (stripChars l) = stripChars l := by
  simp only [stripChars]
  rw [dropWhile_rev_dropWhile, List.reverse_reverse]
  exact dropWhile_rev_dropWhile _ _

theorem pyStrip_idem (s : String) : pyStrip (pyStrip s) = pyStrip s := by
  rw [pyStrip, pyStrip, List.toList_asString, stripChars_idem]

/-- C4: when fetching/parsing a detail page fails, `parse_detail` returns the
all-empty record instead of propagating; the orchestrator leaves the club
list unchanged for that URL (it is discarded for its empty name), and the run
continues with the remaining URLs. -/
theorem parse_detail_failure_recovered :
    (∀ url, parse_detail .failure url = ⟨"", "", "Other"⟩) ∧
    (∀ st url, (processUrl st url .failure).clubs = st.clubs) ∧
    (∀ st url rest, runUrls st ((url, .failure) :: rest)
        = runUrls { st with seen := url :: st.seen } rest) := by
  have h0 : pyStrip "" = "" := by decide
  have hp : ∀ st url, processUrl st url .failure = { st with seen := url :: st.seen } := by
    intro st url
    simp [processUrl, parse_detail, h0]
  refine ⟨fun url => rfl, fun st url => ?_, fun st url rest => ?_⟩
  · rw [hp]
  · rw [runUrls, hp]

/-- C7: the per-URL step of `main` appends a club record exactly when the
stripped extracted name is non-empty; a discarded URL leaves the accumulated
club list unchanged. -/
theorem club_in_output_iff_nonempty_name :
    ∀ (st : ScrapeState) (url : String) (fetch : FetchResult),
      ((processUrl st url fetch).clubs ≠ st.clubs
          ↔ pyStrip (parse_detail fetch url).name ≠ "") ∧
      (pyStrip (parse_detail fetch url).name = "" →
        (processUrl st url fetch).clubs = st.clubs) ∧
      (pyStrip (parse_detail fetch url).name ≠ "" →
        (processUrl st url fetch).clubs = st.clubs ++
          [⟨pyStrip (parse_detail fetch url).name, (parse_detail fetch url).category,
            pyStrip (parse_detail fetch url).description, url⟩]) := by
  intro st url fetch
  by_cases h : pyStrip (parse_detail fetch url).name = ""
  · refine ⟨?_, fun _ => ?_, fun hc => absurd h hc⟩
    · simp [processUrl, h]
    · simp [processUrl, h]
  · have happ : (processUrl st url fetch).clubs = st.clubs ++
        [⟨pyStrip (parse_detail fetch url).name, (parse_detail fetch url).category,
          pyStrip (parse_detail fetch url).description, url⟩] := by
      simp [processUrl, h]
    refine ⟨⟨fun _ => h, fun _ => ?_⟩, fun hc => absurd hc h, fun _ => happ⟩
    rw [happ]
    simp

/-- Witness for C7: a detail page with heading "Chess Club" produces exactly
one appended record. -/
theorem club_in_output_iff_nonempty_name_witness :
    pyStrip (parse_detail (FetchResult.ok ⟨["Chess Club"], [], [], none, none, [], []⟩)
        "https://amsclubs.ca/clubs/chess").name ≠ "" ∧
      (processUrl ⟨[], []⟩ "https://amsclubs.ca/clubs/chess"
          (FetchResult.ok ⟨["Chess Club"], [], [], none, none, [], []⟩)).clubs
        = [] ++
          [⟨pyStrip (parse_detail (FetchResult.ok ⟨["Chess Club"], [], [], none, none, [], []⟩)
              "https://amsclubs.ca/clubs/chess").name,
            (parse_detail (FetchResult.ok ⟨["Chess Club"], [], [], none, none, [], []⟩)
              "https://amsclubs.ca/clubs/chess").category,
            pyStrip (parse_detail (FetchResult.ok ⟨["Chess Club"], [], [], none, none, [], []⟩)
              "https://amsclubs.ca/clubs/chess").description,
            "https://amsclubs.ca/clubs/chess"⟩] :=
  ⟨by decide,
    (club_in_output_iff_nonempty_name ⟨[], []⟩ "https://amsclubs.ca/clubs/chess"
      (FetchResult.ok ⟨["Chess Club"], [], [], none, none, [], []⟩)).2.2 (by decide)⟩

/-- C10: every record the per-URL step appends has whitespace-stripped name
and description fields, and a detail page whose extracted name is non-empty
but all-whitespace is discarded exactly like one with an empty name. -/
theorem appended_record_fields_stripped :
    ∀ (st : ScrapeState) (url : String) (fetch : FetchResult),
      ((processUrl st url fetch).clubs = st.clubs ∨
        ∃ c : Club, (processUrl st url fetch).clubs = st.clubs ++ [c] ∧
          pyStrip c.name = c.name ∧ pyStrip c.description = c.description ∧ c.name ≠ "") ∧
      ((parse_detail fetch url).name ≠ "" → pyStrip (parse_detail fetch url).name = "" →
        (processUrl st url fetch).clubs = st.clubs) := by
  intro st url fetch
  constructor
  · by_cases h : pyStrip (parse_detail fetch url).name = ""
    · left
      simp [processUrl, h]
    · right
      refine ⟨⟨pyStrip (parse_detail fetch url).name, (parse_detail fetch url).category,
        pyStrip (parse_detail fetch url).description, url⟩, ?_,
        pyStrip_idem _, pyStrip_idem _, h⟩
      simp [processUrl, h]
  · intro _ h2
    simp [processUrl, h2]

/-- Witness for C10: a detail page whose only heading text is a tab yields a
non-empty extracted name that strips to empty, and the record is discarded. -/
theorem appended_record_fields_stripped_witness :
    (parse_detail (FetchResult.ok ⟨["\t"], [], [], none, none, [], []⟩) "u").name ≠ "" ∧
      pyStrip (parse_detail (FetchResult.ok ⟨["\t"], [], [], none, none, [], []⟩) "u").name
        = "" ∧
      (processUrl ⟨[], []⟩ "u"
          (FetchResult.ok ⟨["\t"], [], [], none, none, [], []⟩)).clubs = [] :=
  ⟨by decide, by decide,
    (appended_record_fields_stripped ⟨[], []⟩ "u"
      (FetchResult.ok ⟨["\t"], [], [], none, none, [], []⟩)).2 (by decide) (by decide)⟩

/-- One-step unfolding of the pagination loop. -/
theorem iteratePagesFrom_succ (fetch : Nat → PageFetch) (p fuel : Nat) :
    iteratePagesFrom fetch p (fuel + 1) = match fetch p with
      | .notFound => []
      | .failure => []
      | .ok page =>
        let links := find_club_links page
        if links = [] then [] else (p, links) :: iteratePagesFrom fetch (p + 1) fuel := rfl

theorem iteratePagesFrom_length_le (fetch : Nat → PageFetch) :
    ∀ (fuel p : Nat), (iteratePagesFrom fetch p fuel).length ≤ fuel := by
  intro fuel
  induction fuel with
  | zero => intro p; simp [iteratePagesFrom]
  | succ n ih =>
    intro p
    rw [iteratePagesFrom_succ]
    cases h : fetch p with
    | notFound => simp
    | failure => simp
    | ok page =>
      simp only []
      split
      · simp
      · simpa using Nat.succ_le_succ (ih (p + 1))

theorem iteratePagesFrom_yield (fetch : Nat → PageFetch) :
    ∀ (fuel p i : Nat) (e : Nat × List String),
      (iteratePagesFrom fetch p fuel)[i]? = some e →
        e.1 = p + i ∧ e.2 ≠ [] ∧
          ∃ page, fetch e.1 = PageFetch.ok page ∧ e.2 = find_club_links page := by
  intro fuel
  induction fuel with
  | zero => intro p i e h; simp [iteratePagesFrom] at h
  | succ n ih =>
    intro p i e h
    rw [iteratePagesFrom_succ] at h
    cases hf : fetch p with
    | notFound => rw [hf] at h; simp at h
    | failure => rw [hf] at h; simp at h
    | ok page =>
      rw [hf] at h
      simp only [] at h
      split at h
      · simp at h
      · rename_i hne
        cases i with
        | zero =>
          rw [List.getElem?_cons_zero, Option.some.injEq] at h
          subst h
          exact ⟨by simp, hne, page, hf, rfl⟩
        | succ j =>
          rw [List.getElem?_cons_succ] at h
          obtain ⟨h1, h2, h3⟩ := ih (p + 1) j e h
          exact ⟨by omega, h2, h3⟩

/-- C5: the pagination walker always yields a finite sequence of at most
`max_pages` entries; page numbers start at 1 and increase by one per yielded
page; every yielded entry has a non-empty link set and comes from a fetch
that returned a parsed page (so nothing is yielded at or past the first 404,
transport error, or empty page). -/
theorem iterate_pages_finite_bounded :
    ∀ (fetch : Nat → PageFetch) (max_pages : Nat),
      (iterate_pages fetch max_pages).length ≤ max_pages ∧
      ∀ (i : Nat) (e : Nat × List String),
        (iterate_pages fetch max_pages)[i]? = some e →
          e.1 = i + 1 ∧ e.2 ≠ [] ∧
            ∃ page, fetch e.1 = PageFetch.ok page ∧ e.2 = find_club_links page := by
  intro fetch mp
  refine ⟨iteratePagesFrom_length_le fetch mp 1, fun i e he => ?_⟩
  obtain ⟨h1, h2, h3⟩ := iteratePagesFrom_yield fetch mp 1 i e he
  exact ⟨by omega, h2, h3⟩

/-- Witness for C5: with an oracle serving one club card on page 1 and 404
afterwards, and `max_pages = 1`, the walker yields exactly page 1 with its
single link. -/
theorem iterate_pages_finite_bounded_witness :
    (iterate_pages pageOracle1 1)[0]? = some (1, ["https://amsclubs.ca/a"]) ∧
      (1, ["https://amsclubs.ca/a"]).1 = 0 + 1 ∧
      (1, ["https://amsclubs.ca/a"]).2 ≠ [] ∧
      ∃ page, pageOracle1 (1, ["https://amsclubs.ca/a"]).1 = PageFetch.ok page ∧
        (1, ["https://amsclubs.ca/a"]).2 = find_club_links page := by
  have hlinks : find_club_links [⟨"/a#f", "Discover"⟩] = ["https://amsclubs.ca/a"] := by
    rw [find_club_links]
    have h1 : (([⟨"/a#f", "Discover"⟩] : List Anchor).filterMap processAnchor).dedup
        = ["https://amsclubs.ca/a"] := by decide
    rw [h1, List.mergeSort_singleton]
  have hit : iterate_pages pageOracle1 1 = [(1, ["https://amsclubs.ca/a"])] := by
    show iteratePagesFrom pageOracle1 1 (0 + 1) = _
    rw [iteratePagesFrom_succ]
    rw [show pageOracle1 1 = PageFetch.ok [⟨"/a#f", "Discover"⟩] from rfl]
    show (if find_club_links [⟨"/a#f", "Discover"⟩] = [] then [] else
        (1, find_club_links [⟨"/a#f", "Discover"⟩]) :: iteratePagesFrom pageOracle1 2 0) = _
    rw [hlinks, if_neg (by decide)]
    rfl
  have he : (iterate_pages pageOracle1 1)[0]? = some (1, ["https://amsclubs.ca/a"]) := by
    rw [hit]; rfl
  exact ⟨he, (iterate_pages_finite_bounded pageOracle1 1).2 0 (1, ["https://amsclubs.ca/a"]) he⟩

end ClubScraper
